import Mathlib

set_option maxHeartbeats 1000000

/-!
Verification development for the RavilBuy operator console core.

JavaScript strings are modelled as `List Char` (`Str`), JavaScript primitive
values reaching the command pipeline as `JSVal` (undefined, null, string,
number; the numbers that occur here are integers, modelled as `Int`).
Every definition is translated from the JavaScript source files
(`src/unnamed/part_000` and `src/Site/add-ignore.js`).
-/

abbrev Str := List Char

/-- The double-quote character. -/
def cQuote : Char := Char.ofNat 34

/-- The backslash character. -/
def cBackslash : Char := Char.ofNat 92

/-- The backtick character. -/
def cBacktick : Char := Char.ofNat 96

/-- JavaScript primitive values that flow into the command pipeline. -/
inductive JSVal where
  | undef
  | null
  | str (s : Str)
  | num (n : Int)
deriving DecidableEq, Repr

/-- Decimal digits of a natural number, accumulator style; `fuel` bounds the
recursion and is instantiated with the number itself. -/
def natToListAux : Nat → Nat → List Char → List Char
  | 0, _, acc => acc
  | fuel + 1, n, acc =>
    if n = 0 then acc
    else natToListAux fuel (n / 10) (Char.ofNat (48 + n % 10) :: acc)

/-- Decimal string form of a natural number (JavaScript `String(n)` for `n ≥ 0`). -/
def natToList (n : Nat) : Str :=
  if n = 0 then ['0'] else natToListAux n n []

/-- Decimal string form of an integer (JavaScript `String(n)` on integral numbers). -/
def intToList (n : Int) : Str :=
  if n < 0 then '-' :: natToList n.natAbs else natToList n.toNat

/-- JavaScript `ToString` on the primitives of `JSVal`. -/
def jsToString : JSVal → Str
  | .undef => "undefined".toList
  | .null => "null".toList
  | .str s => s
  | .num n => intToList n

/-- JavaScript truthiness on the primitives of `JSVal`. -/
def jsTruthy : JSVal → Bool
  | .undef => false
  | .null => false
  | .str s => !s.isEmpty
  | .num n => n != 0

/-- JavaScript nullish coalescing `a ?? b`. -/
def jsNullish (a b : JSVal) : JSVal :=
  match a with
  | .undef => b
  | .null => b
  | v => v

/-- JavaScript `String.prototype.trim` (whitespace restricted to the ASCII
whitespace characters that `Char.isWhitespace` covers). -/
def jsTrim (s : Str) : Str :=
  ((s.dropWhile Char.isWhitespace).reverse.dropWhile Char.isWhitespace).reverse

/-- Value of the digit run `ds` read in base 10. -/
def digitsToNat (ds : List Char) : Nat :=
  ds.foldl (fun a c => a * 10 + (c.toNat - 48)) 0

/-- The longest leading digit run of `s`, or `none` when there is none
(the `NaN` case of `Number.parseInt`). -/
def parseDigits (s : Str) : Option Nat :=
  let ds := s.takeWhile Char.isDigit
  if ds.isEmpty then none else some (digitsToNat ds)

/-- JavaScript `Number.parseInt(s, 10)`: skip leading whitespace, optional
sign, then the longest digit prefix; `none` models `NaN`. -/
def jsParseInt (s : Str) : Option Int :=
  let s1 := s.dropWhile Char.isWhitespace
  match s1 with
  | '-' :: rest => (parseDigits rest).map (fun n => -(n : Int))
  | '+' :: rest => (parseDigits rest).map (fun n => (n : Int))
  | _ => (parseDigits s1).map (fun n => (n : Int))

/-- Source file `src/unnamed/part_000` line 4: `SAFE_VALUE` character class
`[0-9A-Za-z_.@%+=:,/\-]`. -/
def isSafeChar (c : Char) : Bool :=
  c.isDigit || c.isUpper || c.isLower ||
    ['_', '.', '@', '%', '+', '=', ':', ',', '/', cBackslash, '-'].contains c

/-- Source `SAFE_VALUE.test(part)`: the regex is anchored and requires at least one
character. -/
def SAFE_VALUE_test (s : Str) : Bool :=
  !s.isEmpty && s.all isSafeChar

/-- Source `part.startsWith("-")`. -/
def startsWithDash : Str → Bool
  | [] => false
  | c :: _ => c = '-'

/-- The characters escaped by `part.replace(/(["\\$`])/g, "\\$1")`. -/
def isEscTarget (c : Char) : Bool :=
  c = cQuote || c = cBackslash || c = '$' || c = cBacktick

/-- Source `part.replace(/(["\\$`])/g, "\\$1")` (lines 151): prefix every
double quote, backslash, dollar and backtick with one backslash. -/
def escapeUnsafe (s : Str) : Str :=
  (s.map fun c => if isEscTarget c then [cBackslash, c] else [c]).flatten

/-- Source `shellQuote` (lines 137-153) applied to the string form of the token. -/
def shellQuoteStr (part : Str) : Str :=
  if part.isEmpty then []
  else if startsWithDash part then part
  else if SAFE_VALUE_test part then part
  else cQuote :: escapeUnsafe part ++ [cQuote]

/-- Source `shellQuote(rawPart)` (lines 137-153): undefined and null map to the
empty string, any other token is coerced by `String(...)` first. -/
def shellQuote : JSVal → Str
  | .undef => []
  | .null => []
  | .str s => shellQuoteStr s
  | .num n => shellQuoteStr (intToList n)

/-- JavaScript array `.join(sep)` on a list of strings. -/
def joinWith (sep : Str) : List Str → Str
  | [] => []
  | [x] => x
  | x :: y :: xs => x ++ sep ++ joinWith sep (y :: xs)

/-- The first `.map` of `joinCommand` (line 157): numbers become their
decimal string form, every other entry passes through. -/
def coerceNum : JSVal → JSVal
  | .num n => .str (intToList n)
  | v => v

/-- The `.filter` of `joinCommand` (line 158): drop undefined, null and the
empty string. -/
def keepPart : JSVal → Bool
  | .undef => false
  | .null => false
  | .str s => !s.isEmpty
  | .num _ => true

/-- Source `joinCommand(parts)` (lines 155-161). -/
def joinCommand (parts : List JSVal) : Str :=
  joinWith [' '] (((parts.map coerceNum).filter keepPart).map shellQuote)

/-- Modelled from the spec wording of 4.1: wrap in double quotes, with each
embedded double quote, backslash, dollar sign and backtick preceded by one
backslash and no other character altered. -/
def specEscape (s : Str) : Str :=
  (s.map fun c =>
    if c = cQuote ∨ c = cBackslash ∨ c = '$' ∨ c = cBacktick
    then [cBackslash, c] else [c]).flatten

/-- Modelled from the spec wording of 4.2: the kept token strings, in order —
numbers coerced to decimal strings, null, undefined and empty strings dropped. -/
def specTokenStrings (parts : List JSVal) : List Str :=
  parts.filterMap fun p =>
    match p with
    | .undef => none
    | .null => none
    | .num n => some (intToList n)
    | .str s => if s.isEmpty then none else some s

theorem escapeUnsafe_eq_specEscape (s : Str) : escapeUnsafe s = specEscape s := by
  unfold escapeUnsafe specEscape
  induction s with
  | nil => rfl
  | cons c cs ih =>
    simp only [List.map_cons, List.flatten_cons] at *
    rw [ih]
    congr 1
    have hiff : isEscTarget c = true ↔
        (c = cQuote ∨ c = cBackslash ∨ c = '$' ∨ c = cBacktick) := by
      simp [isEscTarget]
      tauto
    by_cases h : isEscTarget c
    · simp [h, hiff.mp h]
    · have h2 : ¬(c = cQuote ∨ c = cBackslash ∨ c = '$' ∨ c = cBacktick) :=
        fun hc => h (hiff.mpr hc)
      simp [h, h2]

theorem natToListAux_acc_ne_nil : ∀ (fuel n : Nat) (acc : List Char), acc ≠ [] →
    natToListAux fuel n acc ≠ [] := by
  intro fuel
  induction fuel with
  | zero => intro n acc h; simpa [natToListAux] using h
  | succ f ih =>
    intro n acc h
    by_cases hn : n = 0
    · simpa [natToListAux, hn] using h
    · simp only [natToListAux, hn, if_false]
      exact ih _ _ (List.cons_ne_nil _ _)

theorem natToList_ne_nil (n : Nat) : natToList n ≠ [] := by
  unfold natToList
  by_cases h : n = 0
  · simp [h]
  · simp only [h, if_false]
    cases n with
    | zero => exact absurd rfl h
    | succ m =>
      simp only [natToListAux, h, if_false]
      exact natToListAux_acc_ne_nil _ _ _ (List.cons_ne_nil _ _)

theorem intToList_ne_nil (n : Int) : intToList n ≠ [] := by
  unfold intToList
  by_cases h : n < 0
  · simp [h]
  · simpa [h] using natToList_ne_nil n.toNat

theorem isDigit_digitChar (n : Nat) : (Char.ofNat (48 + n % 10)).isDigit = true := by
  have h : n % 10 < 10 := Nat.mod_lt _ (by norm_num)
  generalize n % 10 = r at h ⊢
  interval_cases r <;> decide

theorem natToListAux_digits : ∀ (fuel n : Nat) (acc : List Char),
    (∀ c ∈ acc, c.isDigit = true) → ∀ c ∈ natToListAux fuel n acc, c.isDigit = true := by
  intro fuel
  induction fuel with
  | zero => intro n acc hacc c hc; exact hacc c (by simpa [natToListAux] using hc)
  | succ f ih =>
    intro n acc hacc c hc
    by_cases hn : n = 0
    · exact hacc c (by simpa [natToListAux, hn] using hc)
    · have hc' : c ∈ natToListAux f (n / 10) (Char.ofNat (48 + n % 10) :: acc) := by
        simpa [natToListAux, hn] using hc
      refine ih _ _ ?_ c hc'
      intro d hd
      rcases List.mem_cons.mp hd with h | h
      · subst h; exact isDigit_digitChar n
      · exact hacc d h

theorem natToList_digits (n : Nat) : ∀ c ∈ natToList n, c.isDigit = true := by
  unfold natToList
  by_cases h : n = 0
  · intro c hc
    simp [h] at hc
    subst hc; decide
  · simp only [h, if_false]
    exact natToListAux_digits _ _ _ (by simp)

theorem isWhitespace_elim {c : Char} (h : c.isWhitespace = true) :
    c = ' ' ∨ c = '\t' ∨ c = '\r' ∨ c = '\n' := by
  simp [Char.isWhitespace] at h
  tauto

theorem isDigit_not_ws {c : Char} (h : c.isDigit = true) : c.isWhitespace = false := by
  by_contra hws
  have hws' : c.isWhitespace = true := by simpa using hws
  rcases isWhitespace_elim hws' with h1 | h1 | h1 | h1 <;> subst h1 <;> revert h <;> decide

theorem isSafeChar_not_ws {c : Char} (h : isSafeChar c = true) : c.isWhitespace = false := by
  by_contra hws
  have hws' : c.isWhitespace = true := by simpa using hws
  rcases isWhitespace_elim hws' with h1 | h1 | h1 | h1 <;> subst h1 <;> revert h <;> decide

theorem intToList_head_not_ws (n : Int) :
    ∀ c, (intToList n).head? = some c → c.isWhitespace = false := by
  intro c hc
  unfold intToList at hc
  by_cases h : n < 0
  · simp [h] at hc
    subst hc; decide
  · simp only [h, if_false] at hc
    cases hl : natToList n.toNat with
    | nil => exact absurd hl (natToList_ne_nil n.toNat)
    | cons a t =>
      rw [hl] at hc
      simp at hc
      subst hc
      exact isDigit_not_ws (natToList_digits n.toNat a (by rw [hl]; exact List.mem_cons_self _ _))

/-- Claim C1: shell quoting maps undefined, null and the empty string to the
empty string; a token starting with a dash is returned verbatim, regardless
of any unsafe characters it contains; a token made entirely of the safe
characters is returned verbatim; every other token is wrapped in double
quotes with each embedded double quote, backslash, dollar sign and backtick
preceded by one backslash and no other character altered. -/
theorem C1_shellQuote_contract (s : Str) :
    (shellQuote JSVal.undef = [] ∧ shellQuote JSVal.null = [] ∧
      shellQuote (JSVal.str []) = [])
    ∧ (startsWithDash s = true → shellQuote (JSVal.str s) = s)
    ∧ (s.all isSafeChar = true → shellQuote (JSVal.str s) = s)
    ∧ (s ≠ [] → startsWithDash s = false → s.all isSafeChar = false →
        shellQuote (JSVal.str s) = cQuote :: specEscape s ++ [cQuote]) := by
  refine ⟨⟨rfl, rfl, by simp [shellQuote, shellQuoteStr]⟩, ?_, ?_, ?_⟩
  · intro h
    cases s with
    | nil => simp [startsWithDash] at h
    | cons a t =>
      simp [shellQuote, shellQuoteStr, h]
  · intro h
    cases s with
    | nil => simp [shellQuote, shellQuoteStr]
    | cons a t =>
      by_cases hd : startsWithDash (a :: t)
      · simp [shellQuote, shellQuoteStr, hd]
      · simp [shellQuote, shellQuoteStr, hd, SAFE_VALUE_test, h]
  · intro hne hd hsafe
    have hemp : (s.isEmpty) = false := by
      cases s with
      | nil => exact absurd rfl hne
      | cons a t => rfl
    simp [shellQuote, shellQuoteStr, hemp, hd, SAFE_VALUE_test, hsafe,
      escapeUnsafe_eq_specEscape]

theorem C1_shellQuote_contract_witness :
    (startsWithDash ("-p$x".toList) = true ∧
      shellQuote (JSVal.str ("-p$x".toList)) = "-p$x".toList)
    ∧ (("ab/c.1".toList).all isSafeChar = true ∧
      shellQuote (JSVal.str ("ab/c.1".toList)) = "ab/c.1".toList)
    ∧ shellQuote (JSVal.str ("a b".toList)) =
        cQuote :: specEscape ("a b".toList) ++ [cQuote] :=
  ⟨⟨by decide, (C1_shellQuote_contract _).2.1 (by decide)⟩,
   ⟨by decide, (C1_shellQuote_contract _).2.2.1 (by decide)⟩,
   (C1_shellQuote_contract _).2.2.2 (by decide) (by decide) (by decide)⟩

theorem joinCommand_eq_spec (parts : List JSVal) :
    joinCommand parts = joinWith [' '] ((specTokenStrings parts).map shellQuoteStr) := by
  unfold joinCommand
  congr 1
  induction parts with
  | nil => rfl
  | cons p ps ih =>
    cases p with
    | undef => simpa [specTokenStrings, coerceNum, keepPart] using ih
    | null => simpa [specTokenStrings, coerceNum, keepPart] using ih
    | num n =>
      have hne : (intToList n).isEmpty = false := by
        cases hl : intToList n with
        | nil => exact absurd hl (intToList_ne_nil n)
        | cons a t => rfl
      simpa [specTokenStrings, coerceNum, keepPart, shellQuote, hne] using ih
    | str s =>
      by_cases hs : s.isEmpty
      · have hnil : s = [] := by simpa using hs
        subst hnil
        simpa [specTokenStrings, coerceNum, keepPart, List.filterMap_cons] using ih
      · have hne : s ≠ [] := by simpa using hs
        simpa [specTokenStrings, coerceNum, keepPart, shellQuote,
          List.filterMap_cons, hs, hne] using ih

theorem specTokenStrings_ne_nil (parts : List JSVal) :
    ∀ s ∈ specTokenStrings parts, s ≠ [] := by
  intro s hs
  induction parts with
  | nil => simp [specTokenStrings] at hs
  | cons p ps ih =>
    cases p with
    | undef => exact ih (by simpa [specTokenStrings] using hs)
    | null => exact ih (by simpa [specTokenStrings] using hs)
    | num n =>
      rcases by simpa [specTokenStrings] using hs with h | h
      · subst h; exact intToList_ne_nil n
      · exact ih (by simpa [specTokenStrings] using h)
    | str t =>
      by_cases ht : t.isEmpty
      · have hnil : t = [] := by simpa using ht
        subst hnil
        exact ih (by simpa [specTokenStrings] using hs)
      · have h2 : (¬t = [] ∧ t = s) ∨ s ∈ specTokenStrings ps := by
          simpa [specTokenStrings, ht] using hs
        rcases h2 with ⟨htne, rfl⟩ | h
        · exact htne
        · exact ih h

theorem shellQuoteStr_ne_nil {s : Str} (h : s ≠ []) : shellQuoteStr s ≠ [] := by
  have hemp : s.isEmpty = false := by
    cases s with
    | nil => exact absurd rfl h
    | cons a t => rfl
  unfold shellQuoteStr
  rw [hemp]
  by_cases hd : startsWithDash s
  · simpa [hd]
  · by_cases hsafe : SAFE_VALUE_test s
    · simpa [hd, hsafe]
    · simp [hd, hsafe]

theorem shellQuoteStr_head_not_ws {s : Str} (hne : s ≠ []) :
    ∀ c, (shellQuoteStr s).head? = some c → c.isWhitespace = false := by
  intro c hc
  cases s with
  | nil => exact absurd rfl hne
  | cons a t =>
    unfold shellQuoteStr at hc
    by_cases hd : startsWithDash (a :: t)
    · simp [hd] at hc
      have ha : a = '-' := by simpa [startsWithDash] using hd
      rw [← hc, ha]; decide
    · by_cases hsafe : SAFE_VALUE_test (a :: t)
      · simp [hd, hsafe] at hc
        have ha : isSafeChar a = true := by
          have := hsafe
          simp [SAFE_VALUE_test] at this
          exact this.1
        rw [← hc]
        exact isSafeChar_not_ws ha
      · simp [hd, hsafe] at hc
        rw [← hc]; decide

theorem joinWith_space_head_not_ws (l : List Str)
    (h : ∀ s ∈ l, s ≠ [] ∧ ∀ c, s.head? = some c → c.isWhitespace = false) :
    ∀ c, (joinWith [' '] l).head? = some c → c.isWhitespace = false := by
  intro c hc
  match l with
  | [] => simp [joinWith] at hc
  | [x] =>
    exact (h x (by simp)).2 c (by simpa [joinWith] using hc)
  | x :: y :: xs =>
    rcases h x (by simp) with ⟨hxne, hxhead⟩
    cases x with
    | nil => exact absurd rfl hxne
    | cons a t =>
      refine hxhead c ?_
      simpa [joinWith] using hc

/-- Claim C2 counterexample: a flag token is passed through verbatim, so a
token starting with a dash that contains a newline and ends in a space makes
the assembled command span two lines and end in whitespace, contradicting
the claim that the output is one line with no trailing whitespace. -/
theorem C2_joinCommand_counterexample :
    joinCommand [JSVal.str ['-', 'a', '\n', ' ']] = ['-', 'a', '\n', ' ']
    ∧ '\n' ∈ joinCommand [JSVal.str ['-', 'a', '\n', ' ']]
    ∧ (joinCommand [JSVal.str ['-', 'a', '\n', ' ']]).getLast? = some ' ' := by
  decide

/-- Claim C2 (amended): command assembly coerces numbers to their decimal
string form, drops null, undefined and empty-string entries, quotes each
remaining token by the shell-quoting rules and joins them with single
spaces; the result never starts with whitespace, but it can end in
whitespace or span several lines when a flag token does, because flag
tokens pass through verbatim; assembling the example token list yields
exactly the expected login command. -/
theorem C2_joinCommand_amended (parts : List JSVal) :
    joinCommand parts = joinWith [' '] ((specTokenStrings parts).map shellQuoteStr)
    ∧ (∀ c, (joinCommand parts).head? = some c → c.isWhitespace = false)
    ∧ joinCommand [JSVal.str "python".toList, JSVal.str "Login.py".toList,
        JSVal.str "--account".toList, JSVal.str "bob".toList,
        JSVal.str "--verbose".toList] =
      "python Login.py --account bob --verbose".toList := by
  refine ⟨joinCommand_eq_spec parts, ?_, by decide⟩
  rw [joinCommand_eq_spec]
  refine joinWith_space_head_not_ws _ ?_
  intro s hs
  rcases List.mem_map.mp hs with ⟨t, ht, rfl⟩
  have htne : t ≠ [] := specTokenStrings_ne_nil parts t ht
  exact ⟨shellQuoteStr_ne_nil htne, shellQuoteStr_head_not_ws htne⟩

theorem C2_joinCommand_amended_witness :
    joinCommand [JSVal.num 7, JSVal.undef, JSVal.str "a b".toList] =
      joinWith [' ']
        ((specTokenStrings [JSVal.num 7, JSVal.undef, JSVal.str "a b".toList]).map
          shellQuoteStr)
    ∧ Char.isWhitespace '7' = false :=
  ⟨(C2_joinCommand_amended _).1,
   (C2_joinCommand_amended [JSVal.num 7, JSVal.undef, JSVal.str "a b".toList]).2.1
     '7' (by decide)⟩

theorem isEmpty_false_of_ne_nil {α : Type} {l : List α} (h : l ≠ []) :
    l.isEmpty = false := by
  cases l with
  | nil => exact absurd rfl h
  | cons a t => rfl

theorem append_ne_nil_left {α : Type} {a b : List α} (h : a ≠ []) :
    a ++ b ≠ [] := by
  cases a with
  | nil => exact absurd rfl h
  | cons x xs => simp

/-- Source `DEFAULT_COMMANDS.killFabriks` (line 13 of `src/unnamed/part_000`). -/
def DEFAULT_killFabriks : Str := "python killFabriks.py".toList

/-- One global single-character replace, as in `value.replace(/c/g, rep)`. -/
def replaceAllChar (target : Char) (rep : Str) (s : Str) : Str :=
  (s.map fun c => if c = target then rep else [c]).flatten

/-- Source `escapeDoubleQuotes(value)` (lines 204-206): first double every
backslash, then prefix every double quote with a backslash. -/
def escapeDoubleQuotes (v : Str) : Str :=
  replaceAllChar cQuote [cBackslash, cQuote]
    (replaceAllChar cBackslash [cBackslash, cBackslash] v)

/-- Modelled from the spec wording of 4.3: backslash-escape only backslashes
and double quotes, in one pass; no safe-token fast path, no dollar or
backtick escaping. -/
def killEscape (v : Str) : Str :=
  (v.map fun c => if c = cBackslash ∨ c = cQuote then [cBackslash, c] else [c]).flatten

theorem replaceAllChar_cons (t : Char) (r : Str) (c : Char) (cs : Str) :
    replaceAllChar t r (c :: cs) =
      (if c = t then r else [c]) ++ replaceAllChar t r cs := by
  unfold replaceAllChar
  simp

theorem replaceAllChar_append (t : Char) (r : Str) (a b : Str) :
    replaceAllChar t r (a ++ b) = replaceAllChar t r a ++ replaceAllChar t r b := by
  unfold replaceAllChar
  simp

theorem escapeDoubleQuotes_eq_killEscape (v : Str) :
    escapeDoubleQuotes v = killEscape v := by
  induction v with
  | nil => rfl
  | cons c cs ih =>
    unfold escapeDoubleQuotes at *
    rw [replaceAllChar_cons, replaceAllChar_append]
    unfold killEscape at *
    simp only [List.map_cons, List.flatten_cons]
    rw [ih]
    congr 1
    by_cases hb : c = cBackslash
    · subst hb
      simp [replaceAllChar_cons, replaceAllChar]
      try decide
    · by_cases hq : c = cQuote
      · subst hq
        simp [replaceAllChar_cons, replaceAllChar, hb]
        try decide
      · simp [replaceAllChar_cons, replaceAllChar, hb, hq]

/-- Source `buildKillAddCommand(type, id, name)` (lines 208-217).  The source
applies `type || ""` and `name || ""` before escaping; on the pure string
model this is the identity, because the only falsy string is the empty one
and escaping the empty string yields the empty string. -/
def buildKillAddCommand (type id name : Str) : Str :=
  if id.isEmpty then []
  else
    let safeType := escapeDoubleQuotes type
    let safeId := escapeDoubleQuotes id
    let safeName := escapeDoubleQuotes name
    let snippet :=
      "from killFabriks import add_kill_fabriks; add_kill_fabriks(".toList
        ++ [cQuote] ++ safeType ++ [cQuote] ++ ", ".toList
        ++ [cQuote] ++ safeId ++ [cQuote] ++ ", ".toList
        ++ [cQuote] ++ safeName ++ [cQuote] ++ ")".toList
    "python -c ".toList ++ [cQuote] ++ snippet ++ [cQuote]

/-- Modelled from the spec wording of 4.3: the one-shot registration line
for one selected entry, with type, id and name escaped by `killEscape`. -/
def killAddLine (type id name : Str) : Str :=
  "python -c ".toList ++ [cQuote] ++
    ("from killFabriks import add_kill_fabriks; add_kill_fabriks(".toList
      ++ [cQuote] ++ killEscape type ++ [cQuote] ++ ", ".toList
      ++ [cQuote] ++ killEscape id ++ [cQuote] ++ ", ".toList
      ++ [cQuote] ++ killEscape name ++ [cQuote] ++ ")".toList) ++ [cQuote]

/-- One entry of `killState.selections` (lines 317-323). -/
structure SelEntry where
  type : Str
  id : Str
  name : Str
  count : Option Int
deriving DecidableEq, Repr

/-- The `killFabriks(form)` command builder (lines 658-674), as a function
of the run-cleanup checkbox state and the current selection list. -/
def killFabriks (runCleanup : Bool) (sels : List SelEntry) : Str :=
  let commands : List Str :=
    (if runCleanup then [DEFAULT_killFabriks] else []) ++
      sels.filterMap fun e =>
        let c := buildKillAddCommand e.type e.id e.name
        if c.isEmpty then none else some c
  if commands.isEmpty then DEFAULT_killFabriks
  else joinWith ['\n'] commands

theorem buildKillAddCommand_eq_line (t id n : Str) (h : id ≠ []) :
    buildKillAddCommand t id n = killAddLine t id n := by
  unfold buildKillAddCommand killAddLine
  rw [isEmpty_false_of_ne_nil h]
  simp [escapeDoubleQuotes_eq_killEscape]

theorem buildKillAddCommand_ne_nil (t id n : Str) (h : id ≠ []) :
    buildKillAddCommand t id n ≠ [] := by
  rw [buildKillAddCommand_eq_line t id n h]
  unfold killAddLine
  intro hc
  exact absurd (List.append_eq_nil.mp hc).2 (by decide)

theorem killFabriks_filterMap_eq (sels : List SelEntry)
    (h : ∀ e ∈ sels, e.id ≠ []) :
    (sels.filterMap fun e =>
      let c := buildKillAddCommand e.type e.id e.name
      if c.isEmpty then none else some c) =
    sels.map fun e => killAddLine e.type e.id e.name := by
  induction sels with
  | nil => rfl
  | cons e es ih =>
    have he : e.id ≠ [] := h e (by simp)
    have hemp : (buildKillAddCommand e.type e.id e.name).isEmpty = false :=
      isEmpty_false_of_ne_nil (buildKillAddCommand_ne_nil e.type e.id e.name he)
    rw [List.filterMap_cons, List.map_cons]
    simp only [hemp, Bool.false_eq_true, if_false]
    rw [ih (fun x hx => h x (List.mem_cons_of_mem _ hx)),
      buildKillAddCommand_eq_line e.type e.id e.name he]

/-- Claim C3: with no selected entries and the run-cleanup toggle unchecked,
the cleanup builder returns exactly the fixed default command; otherwise it
emits the bare default command first if and only if the toggle is checked,
followed by one line per selected entry in insertion order, each embedding
the type, id and name of the entry with only backslashes and double quotes
backslash-escaped, all joined by newlines. -/
theorem C3_killFabriks_contract (runCleanup : Bool) (sels : List SelEntry)
    (hids : ∀ e ∈ sels, e.id ≠ []) :
    (sels = [] → runCleanup = false →
      killFabriks runCleanup sels = DEFAULT_killFabriks)
    ∧ (sels ≠ [] ∨ runCleanup = true →
        killFabriks runCleanup sels =
          joinWith ['\n']
            ((if runCleanup then [DEFAULT_killFabriks] else []) ++
              sels.map fun e => killAddLine e.type e.id e.name)) := by
  constructor
  · rintro rfl rfl
    rfl
  · intro hcase
    unfold killFabriks
    rw [killFabriks_filterMap_eq sels hids]
    have hne : ((if runCleanup then [DEFAULT_killFabriks] else []) ++
        sels.map fun e => killAddLine e.type e.id e.name) ≠ [] := by
      rcases hcase with hs | hr
      · intro hc
        rcases List.append_eq_nil.mp hc with ⟨_, h2⟩
        exact hs (List.map_eq_nil_iff.mp h2)
      · rw [hr]
        simp
    simp only [isEmpty_false_of_ne_nil hne, Bool.false_eq_true, if_false]

theorem C3_killFabriks_contract_witness :
    killFabriks false [] = DEFAULT_killFabriks
    ∧ killFabriks true [⟨"JV_F_P".toList, "77".toList, "A B".toList, none⟩] =
        joinWith ['\n']
          ([DEFAULT_killFabriks] ++
            ([(⟨"JV_F_P".toList, "77".toList, "A B".toList, none⟩ : SelEntry)].map
              fun e => killAddLine e.type e.id e.name)) :=
  ⟨(C3_killFabriks_contract false [] (by simp)).1 rfl rfl,
   by
    have := (C3_killFabriks_contract true
      [⟨"JV_F_P".toList, "77".toList, "A B".toList, none⟩] (by decide)).2
      (Or.inr rfl)
    simpa using this⟩

/-- Source `isFactorySelected(type, id)` (lines 304-308). -/
def isFactorySelected (sels : List SelEntry) (t id : Str) : Bool :=
  sels.any fun e => e.type == t && e.id == id

/-- Input to `addFactorySelection` (lines 310-325): a factory record as
picked in the UI; `itemCount` is `some n` exactly when the JavaScript value
is of type number. -/
structure FactoryInput where
  type : Str
  id : Str
  name : Str
  itemCount : Option Int
deriving DecidableEq, Repr

/-- Source `addFactorySelection(factory)` (lines 310-325), returning the new
selection list together with the added flag.  `factory.name || ""` is the
identity on the string model, and the `typeof factory.itemCount` test is
the `Option Int` field itself. -/
def addFactorySelection (sels : List SelEntry) (f : FactoryInput) :
    List SelEntry × Bool :=
  if f.id.isEmpty || f.type.isEmpty then (sels, false)
  else if isFactorySelected sels f.type f.id then (sels, false)
  else (sels ++ [⟨f.type, f.id, f.name, f.itemCount⟩], true)

/-- Source `removeFactorySelection(type, id)` (lines 327-336): `findIndex` over the
selections followed by `splice(index, 1)`, with `-1` mapped to `none`. -/
def removeFactorySelection (sels : List SelEntry) (t id : Str) :
    List SelEntry × Bool :=
  match sels.findIdx? (fun e => e.type == t && e.id == id) with
  | none => (sels, false)
  | some i => (sels.eraseIdx i, true)

/-- Reference recursion equivalent to `findIndex` plus `splice(index, 1)`:
drop the first entry whose identity matches, keep everything else. -/
def removeFirstSel : List SelEntry → Str → Str → List SelEntry × Bool
  | [], _, _ => ([], false)
  | e :: rest, t, id =>
    if e.type == t && e.id == id then (rest, true)
    else
      let r := removeFirstSel rest t id
      (e :: r.1, r.2)

theorem findIdx?_acc {α : Type} (p : α → Bool) (l : List α) :
    ∀ i, l.findIdx? p i = (l.findIdx? p 0).map (· + i) := by
  induction l with
  | nil => intro i; rfl
  | cons a as ih =>
    intro i
    rw [List.findIdx?_cons, List.findIdx?_cons]
    by_cases hp : p a
    · simp [hp]
    · simp only [hp, Bool.false_eq_true, if_false]
      rw [ih (i + 1), ih 1, Option.map_map]
      congr 1
      funext x
      simp
      omega

theorem removeFactorySelection_eq_removeFirstSel (sels : List SelEntry)
    (t id : Str) : removeFactorySelection sels t id = removeFirstSel sels t id := by
  induction sels with
  | nil => rfl
  | cons e rest ih =>
    unfold removeFactorySelection removeFirstSel
    rw [List.findIdx?_cons]
    by_cases hp : (e.type == t && e.id == id) = true
    · simp [hp]
    · simp only [hp, Bool.false_eq_true, if_false]
      rw [findIdx?_acc]
      unfold removeFactorySelection at ih
      cases hfind : rest.findIdx? (fun e => e.type == t && e.id == id) with
      | none =>
        rw [hfind] at ih
        simp [← ih]
      | some i =>
        rw [hfind] at ih
        simp [← ih]

/-- Claim C6: adding an entry whose identity is already selected returns
"not added" and leaves the selection unchanged; adding a fresh identity
appends it at the end and returns "added"; a second add of the same
identity right after a first add is always a no-op. -/
theorem C6_addFactorySelection_contract (sels : List SelEntry)
    (f : FactoryInput) (htype : f.type ≠ []) (hid : f.id ≠ []) :
    (isFactorySelected sels f.type f.id = true →
      addFactorySelection sels f = (sels, false))
    ∧ (isFactorySelected sels f.type f.id = false →
      addFactorySelection sels f =
        (sels ++ [⟨f.type, f.id, f.name, f.itemCount⟩], true))
    ∧ (∀ g : FactoryInput, g.type = f.type → g.id = f.id →
        addFactorySelection (addFactorySelection sels f).1 g =
          ((addFactorySelection sels f).1, false)) := by
  have hidE : f.id.isEmpty = false := isEmpty_false_of_ne_nil hid
  have htyE : f.type.isEmpty = false := isEmpty_false_of_ne_nil htype
  refine ⟨?_, ?_, ?_⟩
  · intro h
    simp [addFactorySelection, hidE, htyE, h]
  · intro h
    simp [addFactorySelection, hidE, htyE, h]
  · intro g hgt hgi
    have hgidE : g.id.isEmpty = false := by rw [hgi]; exact hidE
    have hgtyE : g.type.isEmpty = false := by rw [hgt]; exact htyE
    by_cases hsel : isFactorySelected sels f.type f.id
    · simp only [addFactorySelection, hidE, htyE, hsel, Bool.or_self,
        Bool.false_eq_true, if_false, if_true]
      simp [addFactorySelection, hgidE, hgtyE, hgt, hgi, hsel]
    · have hsel2 : isFactorySelected
          (sels ++ [⟨f.type, f.id, f.name, f.itemCount⟩]) g.type g.id = true := by
        simp [isFactorySelected, List.any_append, hgt, hgi]
      simp only [addFactorySelection, hidE, htyE, hsel, Bool.or_self,
        Bool.false_eq_true, if_false]
      simp [addFactorySelection, hgidE, hgtyE, hsel2]

theorem C6_addFactorySelection_contract_witness :
    addFactorySelection [] ⟨"JV_F_P".toList, "7".toList, "N".toList, none⟩ =
      ([⟨"JV_F_P".toList, "7".toList, "N".toList, none⟩], true)
    ∧ addFactorySelection [⟨"JV_F_P".toList, "7".toList, "N".toList, none⟩]
        ⟨"JV_F_P".toList, "7".toList, "Other".toList, some 3⟩ =
      ([⟨"JV_F_P".toList, "7".toList, "N".toList, none⟩], false) :=
  ⟨(C6_addFactorySelection_contract [] _ (by decide) (by decide)).2.1 (by decide),
   (C6_addFactorySelection_contract [⟨"JV_F_P".toList, "7".toList, "N".toList, none⟩]
      _ (by decide) (by decide)).1 (by decide)⟩

/-- Claim C7: removing an identity that is not selected returns "not found"
and leaves the selection unchanged; removing a selected identity removes
exactly the first entry with that identity — matched on type and id only,
whatever its name and count — keeps the others in relative order, and
returns "removed". -/
theorem C7_removeFactorySelection_contract (sels : List SelEntry) (t id : Str) :
    ((∀ e ∈ sels, ¬(e.type = t ∧ e.id = id)) →
      removeFactorySelection sels t id = (sels, false))
    ∧ (∀ l1 e l2, sels = l1 ++ e :: l2 → e.type = t → e.id = id →
        (∀ x ∈ l1, ¬(x.type = t ∧ x.id = id)) →
        removeFactorySelection sels t id = (l1 ++ l2, true)) := by
  constructor
  · intro h
    rw [removeFactorySelection_eq_removeFirstSel]
    induction sels with
    | nil => rfl
    | cons e rest ih =>
      have he : ¬(e.type = t ∧ e.id = id) := h e (by simp)
      have hp : (e.type == t && e.id == id) = false := by
        simp only [Bool.and_eq_true, beq_iff_eq] at *
        simpa using he
      unfold removeFirstSel
      rw [hp]
      simp only [Bool.false_eq_true, if_false]
      rw [ih (fun x hx => h x (List.mem_cons_of_mem _ hx))]
  · intro l1 e l2 hdec het hei hl1
    subst hdec
    rw [removeFactorySelection_eq_removeFirstSel]
    induction l1 with
    | nil =>
      unfold removeFirstSel
      have hp : (e.type == t && e.id == id) = true := by
        simp [het, hei]
      simp [hp]
    | cons x xs ih =>
      have hx : ¬(x.type = t ∧ x.id = id) := hl1 x (by simp)
      have hp : (x.type == t && x.id == id) = false := by
        simp only [Bool.and_eq_true, beq_iff_eq] at *
        simpa using hx
      rw [List.cons_append]
      unfold removeFirstSel
      rw [hp]
      simp only [Bool.false_eq_true, if_false]
      rw [ih (fun y hy => hl1 y (List.mem_cons_of_mem _ hy))]
      simp

theorem C7_removeFactorySelection_contract_witness :
    removeFactorySelection [⟨"JV_F_P".toList, "7".toList, "N".toList, none⟩]
      "XL_F_P".toList "7".toList =
      ([⟨"JV_F_P".toList, "7".toList, "N".toList, none⟩], false)
    ∧ removeFactorySelection
        [⟨"JV_F_P".toList, "7".toList, "N".toList, none⟩,
         ⟨"XL_F_P".toList, "9".toList, "M".toList, some 2⟩]
        "XL_F_P".toList "9".toList =
      ([⟨"JV_F_P".toList, "7".toList, "N".toList, none⟩], true) :=
  ⟨(C7_removeFactorySelection_contract _ _ _).1 (by decide),
   by
    have := (C7_removeFactorySelection_contract
      [⟨"JV_F_P".toList, "7".toList, "N".toList, none⟩,
       ⟨"XL_F_P".toList, "9".toList, "M".toList, some 2⟩]
      "XL_F_P".toList "9".toList).2
      [⟨"JV_F_P".toList, "7".toList, "N".toList, none⟩]
      ⟨"XL_F_P".toList, "9".toList, "M".toList, some 2⟩ [] rfl rfl rfl (by decide)
    simpa using this⟩

/-- Source `getFieldValue(form, name)` (lines 163-178): the raw value of the form field,
trimmed; a missing field is the empty string, which trims to itself. -/
def getFieldValue (raw : Str) : Str := jsTrim raw

/-- Source `value || dflt` on strings: the only falsy string is the empty one. -/
def jsOrStr (v dflt : Str) : Str := if v.isEmpty then dflt else v

/-- Source `parseInteger(value)` (lines 196-202): empty input and `NaN` both map
to `none`. -/
def parseInteger (value : Str) : Option Int :=
  if value.isEmpty then none else jsParseInt value

/-- The separator class of `parseList` (line 191): `[\r\n,;]+`. -/
def isListSep (c : Char) : Bool :=
  c = '\r' || c = '\n' || c = ',' || c = ';'

/-- Split on separator characters.  A run of separators produces extra empty
segments compared with the JavaScript regex split on separator runs, but
`parseList` filters all empty segments out afterwards, so the two agree. -/
def splitOnSeps (s : Str) : List Str :=
  s.foldr
    (fun c acc =>
      if isListSep c then [] :: acc
      else
        match acc with
        | [] => [[c]]
        | g :: gs => (c :: g) :: gs)
    [[]]

/-- Source `parseList(value)` (lines 186-194): split, trim each piece, drop
empties. -/
def parseList (value : Str) : List Str :=
  if value.isEmpty then []
  else ((splitOnSeps value).map jsTrim).filter (fun x => !x.isEmpty)

/-- The shared limit fragment of the `items`, `exportProducts`,
`exportLister` and `makeHTML` builders:
`const limit = parseInteger(getFieldValue(form, "limit"));
 if (limit) parts.push("--limit", String(limit));`
`if (limit)` is JavaScript truthiness, so both `null` and `0` emit
nothing. -/
def limitSegment (rawLimit : Str) : List JSVal :=
  match parseInteger (getFieldValue rawLimit) with
  | none => []
  | some n =>
    if n = 0 then [] else [JSVal.str "--limit".toList, JSVal.str (intToList n)]

/-- Form state of the `items` builder (lines 492-511). -/
structure ItemsForm where
  account : Str
  dataset : Str
  limit : Str
  verbose : Bool
deriving DecidableEq, Repr

/-- Source `commandBuilders.items(form)` (lines 492-511), token sequence. -/
def itemsParts (f : ItemsForm) : List JSVal :=
  let account := getFieldValue f.account
  let dataset := jsOrStr (getFieldValue f.dataset) "all".toList
  [JSVal.str "python".toList, JSVal.str "getItems.py".toList]
    ++ (if !account.isEmpty then
          [JSVal.str "--account".toList, JSVal.str account] else [])
    ++ (if !dataset.isEmpty && dataset ≠ "all".toList then
          [JSVal.str "--dataset".toList, JSVal.str dataset] else [])
    ++ limitSegment f.limit
    ++ (if f.verbose then [JSVal.str "--verbose".toList] else [])

/-- Source `commandBuilders.items(form)` assembled (line 510). -/
def items (f : ItemsForm) : Str := joinCommand (itemsParts f)

/-- Form state of the `exportProducts` builder (lines 513-569). -/
structure ExportForm where
  accounts : List Str
  factoryIds : Str
  factoryNames : Str
  limit : Str
  outputDir : Str
  definitionId : Str
  exportFormatId : Str
  expprod : Str
  exportEncoding : Str
  saveExportEncoding : Str
  skipExisting : Bool
  dryRun : Bool
  verbose : Bool
deriving DecidableEq, Repr

/-- Source `commandBuilders.exportProducts(form)` (lines 513-569), token sequence. -/
def exportProductsParts (f : ExportForm) : List JSVal :=
  let factoryIds := parseList (getFieldValue f.factoryIds)
  let factoryNames := parseList (getFieldValue f.factoryNames)
  let outputDir := getFieldValue f.outputDir
  let definitionId := getFieldValue f.definitionId
  let exportFormatId := getFieldValue f.exportFormatId
  let expprod := jsOrStr (getFieldValue f.expprod) "3".toList
  let exportEncoding := jsOrStr (getFieldValue f.exportEncoding) "1".toList
  let saveExportEncoding :=
    jsOrStr (getFieldValue f.saveExportEncoding) "1".toList
  [JSVal.str "python".toList, JSVal.str "exportProdukt.py".toList]
    ++ (f.accounts.map fun a =>
          [JSVal.str "--account".toList, JSVal.str a]).flatten
    ++ (factoryIds.map fun i =>
          [JSVal.str "--factory-id".toList, JSVal.str i]).flatten
    ++ (factoryNames.map fun n =>
          [JSVal.str "--factory-name".toList, JSVal.str n]).flatten
    ++ limitSegment f.limit
    ++ (if !outputDir.isEmpty && outputDir ≠ "CSVDATA".toList then
          [JSVal.str "--output-dir".toList, JSVal.str outputDir] else [])
    ++ (if !definitionId.isEmpty then
          [JSVal.str "--definition-id".toList, JSVal.str definitionId] else [])
    ++ (if !exportFormatId.isEmpty then
          [JSVal.str "--export-format-id".toList, JSVal.str exportFormatId] else [])
    ++ (if !expprod.isEmpty && expprod ≠ "3".toList then
          [JSVal.str "--expprod".toList, JSVal.str expprod] else [])
    ++ (if !exportEncoding.isEmpty && exportEncoding ≠ "1".toList then
          [JSVal.str "--export-encoding".toList, JSVal.str exportEncoding] else [])
    ++ (if !saveExportEncoding.isEmpty && saveExportEncoding ≠ "1".toList then
          [JSVal.str "--save-export-encoding".toList,
           JSVal.str saveExportEncoding] else [])
    ++ (if f.skipExisting then [JSVal.str "--skip-existing".toList] else [])
    ++ (if f.dryRun then [JSVal.str "--dry-run".toList] else [])
    ++ (if f.verbose then [JSVal.str "--verbose".toList] else [])

/-- Source `commandBuilders.exportProducts(form)` assembled (line 568). -/
def exportProducts (f : ExportForm) : Str := joinCommand (exportProductsParts f)

/-- Form state of the `makeHTML` builder (lines 624-656). -/
structure MakeHTMLForm where
  accounts : List Str
  inputBase : Str
  outputBase : Str
  delimiter : Str
  limit : Str
  noOverwrite : Bool
  verbose : Bool
deriving DecidableEq, Repr

/-- Source `commandBuilders.makeHTML(form)` (lines 624-656), token sequence. -/
def makeHTMLParts (f : MakeHTMLForm) : List JSVal :=
  let inputBase := getFieldValue f.inputBase
  let outputBase := getFieldValue f.outputBase
  let delimiter := jsOrStr (getFieldValue f.delimiter) ";".toList
  [JSVal.str "python".toList, JSVal.str "makeHTML.py".toList]
    ++ (if f.accounts.length > 0 then
          JSVal.str "--account".toList :: f.accounts.map JSVal.str else [])
    ++ (if !inputBase.isEmpty && inputBase ≠ "CSVDATA".toList then
          [JSVal.str "--input-base".toList, JSVal.str inputBase] else [])
    ++ (if !outputBase.isEmpty && outputBase ≠ "readyhtml".toList then
          [JSVal.str "--output-base".toList, JSVal.str outputBase] else [])
    ++ (if !delimiter.isEmpty && delimiter ≠ ";".toList then
          [JSVal.str "--delimiter".toList, JSVal.str delimiter] else [])
    ++ limitSegment f.limit
    ++ (if f.noOverwrite then [JSVal.str "--no-overwrite".toList] else [])
    ++ (if f.verbose then [JSVal.str "--verbose".toList] else [])

/-- Source `commandBuilders.makeHTML(form)` assembled (line 655). -/
def makeHTML (f : MakeHTMLForm) : Str := joinCommand (makeHTMLParts f)

/-- The tokens of the `items` builder before its limit fragment; does not
read the limit field. -/
def itemsPre (f : ItemsForm) : List JSVal :=
  let account := getFieldValue f.account
  let dataset := jsOrStr (getFieldValue f.dataset) "all".toList
  [JSVal.str "python".toList, JSVal.str "getItems.py".toList]
    ++ (if !account.isEmpty then
          [JSVal.str "--account".toList, JSVal.str account] else [])
    ++ (if !dataset.isEmpty && dataset ≠ "all".toList then
          [JSVal.str "--dataset".toList, JSVal.str dataset] else [])

/-- The tokens of the `items` builder after its limit fragment; does not
read the limit field. -/
def itemsPost (f : ItemsForm) : List JSVal :=
  if f.verbose then [JSVal.str "--verbose".toList] else []

/-- The tokens of the `exportProducts` builder before its limit fragment;
does not read the limit field. -/
def exportPre (f : ExportForm) : List JSVal :=
  [JSVal.str "python".toList, JSVal.str "exportProdukt.py".toList]
    ++ (f.accounts.map fun a =>
          [JSVal.str "--account".toList, JSVal.str a]).flatten
    ++ ((parseList (getFieldValue f.factoryIds)).map fun i =>
          [JSVal.str "--factory-id".toList, JSVal.str i]).flatten
    ++ ((parseList (getFieldValue f.factoryNames)).map fun n =>
          [JSVal.str "--factory-name".toList, JSVal.str n]).flatten

/-- The tokens of the `exportProducts` builder after its limit fragment;
does not read the limit field. -/
def exportPost (f : ExportForm) : List JSVal :=
  let outputDir := getFieldValue f.outputDir
  let definitionId := getFieldValue f.definitionId
  let exportFormatId := getFieldValue f.exportFormatId
  let expprod := jsOrStr (getFieldValue f.expprod) "3".toList
  let exportEncoding := jsOrStr (getFieldValue f.exportEncoding) "1".toList
  let saveExportEncoding :=
    jsOrStr (getFieldValue f.saveExportEncoding) "1".toList
  (if !outputDir.isEmpty && outputDir ≠ "CSVDATA".toList then
      [JSVal.str "--output-dir".toList, JSVal.str outputDir] else [])
    ++ (if !definitionId.isEmpty then
          [JSVal.str "--definition-id".toList, JSVal.str definitionId] else [])
    ++ (if !exportFormatId.isEmpty then
          [JSVal.str "--export-format-id".toList, JSVal.str exportFormatId] else [])
    ++ (if !expprod.isEmpty && expprod ≠ "3".toList then
          [JSVal.str "--expprod".toList, JSVal.str expprod] else [])
    ++ (if !exportEncoding.isEmpty && exportEncoding ≠ "1".toList then
          [JSVal.str "--export-encoding".toList, JSVal.str exportEncoding] else [])
    ++ (if !saveExportEncoding.isEmpty && saveExportEncoding ≠ "1".toList then
          [JSVal.str "--save-export-encoding".toList,
           JSVal.str saveExportEncoding] else [])
    ++ (if f.skipExisting then [JSVal.str "--skip-existing".toList] else [])
    ++ (if f.dryRun then [JSVal.str "--dry-run".toList] else [])
    ++ (if f.verbose then [JSVal.str "--verbose".toList] else [])

/-- The tokens of the `makeHTML` builder before its limit fragment; does
not read the limit field. -/
def makeHTMLPre (f : MakeHTMLForm) : List JSVal :=
  let inputBase := getFieldValue f.inputBase
  let outputBase := getFieldValue f.outputBase
  let delimiter := jsOrStr (getFieldValue f.delimiter) ";".toList
  [JSVal.str "python".toList, JSVal.str "makeHTML.py".toList]
    ++ (if f.accounts.length > 0 then
          JSVal.str "--account".toList :: f.accounts.map JSVal.str else [])
    ++ (if !inputBase.isEmpty && inputBase ≠ "CSVDATA".toList then
          [JSVal.str "--input-base".toList, JSVal.str inputBase] else [])
    ++ (if !outputBase.isEmpty && outputBase ≠ "readyhtml".toList then
          [JSVal.str "--output-base".toList, JSVal.str outputBase] else [])
    ++ (if !delimiter.isEmpty && delimiter ≠ ";".toList then
          [JSVal.str "--delimiter".toList, JSVal.str delimiter] else [])

/-- The tokens of the `makeHTML` builder after its limit fragment; does not
read the limit field. -/
def makeHTMLPost (f : MakeHTMLForm) : List JSVal :=
  (if f.noOverwrite then [JSVal.str "--no-overwrite".toList] else [])
    ++ (if f.verbose then [JSVal.str "--verbose".toList] else [])

/-- An export form whose only populated field is `limit = "abc"`. -/
def limitAbcForm : ExportForm :=
  ⟨[], [], [], "abc".toList, [], [], [], [], [], [], false, false, false⟩

/-- An export form whose only populated field is `limit = "0"`. -/
def limitZeroForm : ExportForm :=
  ⟨[], [], [], "0".toList, [], [], [], [], [], [], false, false, false⟩

/-- Claim C8 counterexample: the raw limit value "0" parses under base-10
semantics to the integer 0, yet the export builder omits the `--limit` flag
entirely, because flag emission tests JavaScript truthiness of the parsed
number and 0 is falsy; the claim requires the flag to be emitted for every
value that parses. -/
theorem C8_limit_counterexample :
    parseInteger (getFieldValue "0".toList) = some 0
    ∧ JSVal.str "--limit".toList ∉ exportProductsParts limitZeroForm
    ∧ exportProducts limitZeroForm = "python exportProdukt.py".toList := by
  decide

/-- Claim C8 (amended): in the items, export and makeHTML builders the
`--limit` flag fragment sits between tokens that do not depend on the limit
field; an empty or non-numeric raw value omits the flag and is never
emitted as zero, a raw value parsing to a nonzero integer emits the flag
with the parsed integer, and a raw value parsing to zero also omits the
flag; in particular an export builder given limit "abc" omits `--limit`
entirely. -/
theorem C8_limit_contract (fI : ItemsForm) (fE : ExportForm)
    (fM : MakeHTMLForm) (raw : Str) :
    itemsParts fI = itemsPre fI ++ limitSegment fI.limit ++ itemsPost fI
    ∧ exportProductsParts fE = exportPre fE ++ limitSegment fE.limit ++ exportPost fE
    ∧ makeHTMLParts fM = makeHTMLPre fM ++ limitSegment fM.limit ++ makeHTMLPost fM
    ∧ (parseInteger (getFieldValue raw) = none → limitSegment raw = [])
    ∧ (parseInteger (getFieldValue raw) = some 0 → limitSegment raw = [])
    ∧ (∀ n : Int, parseInteger (getFieldValue raw) = some n → n ≠ 0 →
        limitSegment raw = [JSVal.str "--limit".toList, JSVal.str (intToList n)])
    ∧ exportProducts limitAbcForm = "python exportProdukt.py".toList := by
  refine ⟨?_, ?_, ?_, ?_, ?_, ?_, by decide⟩
  · simp [itemsParts, itemsPre, itemsPost, List.append_assoc]
  · simp [exportProductsParts, exportPre, exportPost, List.append_assoc]
  · simp [makeHTMLParts, makeHTMLPre, makeHTMLPost, List.append_assoc]
  · intro h
    simp [limitSegment, h]
  · intro h
    simp [limitSegment, h]
  · intro n h hn
    simp [limitSegment, h, hn]

theorem C8_limit_contract_witness :
    limitSegment "7".toList =
      [JSVal.str "--limit".toList, JSVal.str (intToList 7)]
    ∧ limitSegment "xy".toList = [] :=
  ⟨(C8_limit_contract ⟨[], [], [], false⟩ limitAbcForm
      ⟨[], [], [], [], [], false, false⟩ "7".toList).2.2.2.2.2.1
      7 (by decide) (by decide),
   (C8_limit_contract ⟨[], [], [], false⟩ limitAbcForm
      ⟨[], [], [], [], [], false, false⟩ "xy".toList).2.2.2.1 (by decide)⟩

/-- The four configured factory sources (`FACTORY_SOURCES`, lines 15-32). -/
inductive SourceType where
  | JV_F_P
  | XL_F_P
  | JV_F_L
  | XL_F_L
deriving DecidableEq, Repr

/-- Iteration order of `Object.entries(FACTORY_SOURCES)` (line 258). -/
def FACTORY_SOURCES_order : List SourceType :=
  [.JV_F_P, .XL_F_P, .JV_F_L, .XL_F_L]

/-- Source `TYPE_LABELS` (lines 33-35): the label of each source. -/
def typeLabel : SourceType → Str
  | .JV_F_P => "JV_F_P — каталоги".toList
  | .XL_F_P => "XL_F_P — каталоги".toList
  | .JV_F_L => "JV_F_L — листер".toList
  | .XL_F_L => "XL_F_L — листер".toList

/-- The fields of one raw JSON element that `normalizeFactoryRecord` reads;
a field that is absent on the object is `JSVal.undef`. -/
structure RawObj where
  id : JSVal
  ID : JSVal
  factory_id : JSVal
  name : JSVal
  item_count : JSVal
  itemCount : JSVal
  count : JSVal
  total : JSVal
  itemTotal : JSVal
deriving DecidableEq, Repr

/-- One element of a fetched JSON array: either not a (non-null) object, or
an object with the fields above. -/
inductive JData where
  | nonObject
  | obj (o : RawObj)
deriving DecidableEq, Repr

/-- A normalized catalog record (lines 227-246). -/
structure FactoryRecord where
  type : SourceType
  id : Str
  name : Str
  itemCount : Option Int
deriving DecidableEq, Repr

/-- Source `normalizeFactoryRecord(type, data)` (lines 219-248). -/
def normalizeFactoryRecord (t : SourceType) : JData → Option FactoryRecord
  | .nonObject => none
  | .obj o =>
    let rawId :=
      jsNullish (jsNullish (jsNullish o.id o.ID) o.factory_id) (JSVal.str [])
    if !jsTruthy rawId then none
    else
      let name := if jsTruthy o.name then jsToString o.name else []
      let countValue :=
        jsNullish (jsNullish (jsNullish (jsNullish o.item_count o.itemCount)
          o.count) o.total) (jsNullish o.itemTotal JSVal.null)
      let itemCount : Option Int :=
        match countValue with
        | .num n => some n
        | .str s => if !(jsTrim s).isEmpty then jsParseInt s else none
        | _ => none
      some ⟨t, jsToString rawId, name, itemCount⟩

/-- The payload behind one 2xx fetch: a JSON array of elements, or some
non-array JSON value. -/
inductive JPayload where
  | arr (items : List JData)
  | nonArr
deriving DecidableEq, Repr

/-- Outcome of fetching one source: a rejected fetch or non-2xx response,
or a 2xx response carrying a JSON payload. -/
inductive FetchOutcome where
  | fail
  | ok (payload : JPayload)
deriving DecidableEq, Repr

/-- The fetch-and-parse part of the loop body of `loadAllFactories`
(lines 260-274), with `throw` modelled by `Except.error`: a non-ok response
throws, a non-array payload throws, an array yields its normalized records
in order. -/
def fetchParse (t : SourceType) (env : SourceType → FetchOutcome) :
    Except Str (List FactoryRecord) :=
  match env t with
  | .fail => .error "HTTP error".toList
  | .ok .nonArr => .error "Unexpected JSON формат".toList
  | .ok (.arr items) => .ok (items.filterMap (normalizeFactoryRecord t))

/-- Whether fetching and parsing the source fails. -/
def fetchFailed (env : SourceType → FetchOutcome) (t : SourceType) : Bool :=
  match fetchParse t env with
  | .ok _ => false
  | .error _ => true

/-- The records one source contributes: its normalized entries when it
succeeds, nothing when it fails. -/
def successEntries (env : SourceType → FetchOutcome) (t : SourceType) :
    List FactoryRecord :=
  match fetchParse t env with
  | .ok recs => recs
  | .error _ => []

/-- Running state of the sweep loop (lines 255-279): collected records,
recorded per-source error labels, and the trace of sources fetched. -/
structure SweepResult where
  collected : List FactoryRecord
  errors : List Str
  fetched : List SourceType
deriving DecidableEq, Repr

/-- One iteration of the `for` loop (lines 258-279): a fetch is issued for
the source, then the per-source `try/catch` either collects the parsed
records or records the label of the source in the error list. -/
def sweepStep (env : SourceType → FetchOutcome) (acc : SweepResult)
    (t : SourceType) : SweepResult :=
  let acc1 := { acc with fetched := acc.fetched ++ [t] }
  match fetchParse t env with
  | .ok recs => { acc1 with collected := acc1.collected ++ recs }
  | .error _ => { acc1 with errors := acc1.errors ++ [typeLabel t] }

/-- The whole sweep loop over the configured sources. -/
def runSweep (env : SourceType → FetchOutcome) : SweepResult :=
  FACTORY_SOURCES_order.foldl (sweepStep env) ⟨[], [], []⟩

/-- Insertion into a list ordered by the comparator `le`. -/
def insertLe {α : Type} (le : α → α → Bool) (a : α) : List α → List α
  | [] => [a]
  | b :: bs => if le a b then a :: b :: bs else b :: insertLe le a bs

/-- Source `collected.sort(comparator)` (lines 280-292).  The comparator is built
on `Intl.Collator`, a locale table outside this model, so the ordering is
abstracted as a parameter; sorting only permutes, membership never
changes. -/
def sortLe {α : Type} (le : α → α → Bool) (l : List α) : List α :=
  l.foldr (insertLe le) []

/-- The async body of `loadAllFactories` (lines 256-299): the per-source
loop cannot throw (every per-source throw is caught inside it), and the
final sorting and memoization are plain assignments, so the body always
resolves with the sorted collected records. -/
def loadAllBody (env : SourceType → FetchOutcome)
    (le : FactoryRecord → FactoryRecord → Bool) :
    Except Str (List FactoryRecord) :=
  .ok (sortLe le (runSweep env).collected)

theorem insertLe_perm {α : Type} (le : α → α → Bool) (a : α) (l : List α) :
    (insertLe le a l).Perm (a :: l) := by
  induction l with
  | nil => exact List.Perm.refl _
  | cons b bs ih =>
    unfold insertLe
    by_cases h : le a b
    · simp [h]
    · simp only [h, Bool.false_eq_true, if_false]
      exact (ih.cons b).trans (List.Perm.swap a b bs)

theorem sortLe_perm {α : Type} (le : α → α → Bool) (l : List α) :
    (sortLe le l).Perm l := by
  induction l with
  | nil => exact List.Perm.refl _
  | cons a as ih =>
    unfold sortLe at *
    exact (insertLe_perm le a _).trans (ih.cons a)

theorem runSweep_foldl_spec (env : SourceType → FetchOutcome) :
    ∀ (l : List SourceType) (acc : SweepResult),
      (l.foldl (sweepStep env) acc).collected =
        acc.collected ++ (l.map (successEntries env)).flatten
      ∧ (l.foldl (sweepStep env) acc).errors =
        acc.errors ++ (l.filter (fun t => fetchFailed env t)).map typeLabel
      ∧ (l.foldl (sweepStep env) acc).fetched = acc.fetched ++ l := by
  intro l
  induction l with
  | nil => intro acc; simp
  | cons t ts ih =>
    intro acc
    rcases ih (sweepStep env acc t) with ⟨h1, h2, h3⟩
    refine ⟨?_, ?_, ?_⟩
    · rw [List.foldl_cons, h1]
      cases hfp : fetchParse t env with
      | ok recs => simp [sweepStep, successEntries, hfp]
      | error e => simp [sweepStep, successEntries, hfp]
    · rw [List.foldl_cons, h2]
      cases hfp : fetchParse t env with
      | ok recs => simp [sweepStep, fetchFailed, List.filter_cons, hfp]
      | error e => simp [sweepStep, fetchFailed, List.filter_cons, hfp]
    · rw [List.foldl_cons, h3]
      cases hfp : fetchParse t env with
      | ok recs => simp [sweepStep, hfp]
      | error e => simp [sweepStep, hfp]

/-- Claim C4: on a sweep where some configured sources fail and others
succeed, the body resolves (never throws) with a catalog containing exactly
the normalized entries of the successful sources, the failed sources are
recorded by label in sweep order, and every configured source is still
fetched. -/
theorem C4_loadAll_partial_failure (env : SourceType → FetchOutcome)
    (le : FactoryRecord → FactoryRecord → Bool)
    (hfail : ∃ t ∈ FACTORY_SOURCES_order, fetchFailed env t = true)
    (hok : ∃ t ∈ FACTORY_SOURCES_order, fetchFailed env t = false) :
    (∃ cat : List FactoryRecord,
      loadAllBody env le = .ok cat ∧
      cat.Perm ((FACTORY_SOURCES_order.map (successEntries env)).flatten))
    ∧ (runSweep env).errors =
        (FACTORY_SOURCES_order.filter (fun t => fetchFailed env t)).map typeLabel
    ∧ (runSweep env).fetched = FACTORY_SOURCES_order := by
  rcases runSweep_foldl_spec env FACTORY_SOURCES_order ⟨[], [], []⟩
    with ⟨h1, h2, h3⟩
  refine ⟨⟨sortLe le (runSweep env).collected, rfl, ?_⟩, ?_, ?_⟩
  · have hperm := sortLe_perm le (runSweep env).collected
    have hcol : (runSweep env).collected =
        (FACTORY_SOURCES_order.map (successEntries env)).flatten := by
      simpa [runSweep] using h1
    have h4 : ((runSweep env).collected).Perm
        ((FACTORY_SOURCES_order.map (successEntries env)).flatten) := by
      rw [hcol]
    exact hperm.trans h4
  · simpa [runSweep] using h2
  · simpa [runSweep] using h3

/-- A concrete fetch environment for the witness: the first source fails
with an HTTP error, the second returns a non-array payload (also a
failure), the last two succeed, one of them with a normalizable record. -/
def envWitness : SourceType → FetchOutcome
  | .JV_F_P => .fail
  | .XL_F_P => .ok .nonArr
  | .JV_F_L => .ok (.arr [])
  | .XL_F_L => .ok (.arr
      [.obj ⟨.str "9".toList, .undef, .undef, .str "N".toList,
        .num 3, .undef, .undef, .undef, .undef⟩])

theorem C4_loadAll_partial_failure_witness :
    (∃ cat : List FactoryRecord,
      loadAllBody envWitness (fun _ _ => true) = .ok cat ∧
      cat.Perm ((FACTORY_SOURCES_order.map (successEntries envWitness)).flatten))
    ∧ (runSweep envWitness).errors =
        (FACTORY_SOURCES_order.filter
          (fun t => fetchFailed envWitness t)).map typeLabel
    ∧ (runSweep envWitness).fetched = FACTORY_SOURCES_order :=
  C4_loadAll_partial_failure envWitness (fun _ _ => true)
    (by decide) (by decide)

/-- The module-level loader state of `src/unnamed/part_000` (lines 45-48):
the memoization flag and cache, the in-flight promise (identified by an id),
and the error-label list; `nextPromiseId` numbers sweeps and
`fetchesIssued` counts fetch calls as instrumentation — starting one sweep
issues exactly one fetch per configured source (lines 258-260). -/
structure LoaderState where
  factoriesLoaded : Bool
  cachedFactories : List FactoryRecord
  factoriesPromise : Option Nat
  factoryLoadErrors : List Str
  nextPromiseId : Nat
  fetchesIssued : Nat
deriving DecidableEq, Repr

/-- What one call of `loadAllFactories()` hands back: the memoized catalog
value, or a pending promise identified by its id. -/
inductive LoadCallResult where
  | value (recs : List FactoryRecord)
  | pending (id : Nat)
deriving DecidableEq, Repr

/-- The number of configured sources fetched by one sweep. -/
def numSources : Nat := FACTORY_SOURCES_order.length

/-- One call of `loadAllFactories()` (lines 250-302): return the cache when
loaded; otherwise join the promise already in flight when there is one;
otherwise reset the error list, start a new sweep — issuing one fetch per
configured source — and remember its promise. -/
def loadAllFactoriesCall (s : LoaderState) : LoaderState × LoadCallResult :=
  if s.factoriesLoaded then (s, .value s.cachedFactories)
  else
    match s.factoriesPromise with
    | some p => (s, .pending p)
    | none =>
      ({ s with
          factoryLoadErrors := [],
          factoriesPromise := some s.nextPromiseId,
          nextPromiseId := s.nextPromiseId + 1,
          fetchesIssued := s.fetchesIssued + numSources },
        .pending s.nextPromiseId)

/-- The sweep promise resolving (lines 293-295): memoize the catalog and
set the loaded flag; the promise field is not cleared on success. -/
def sweepResolve (s : LoaderState) (recs : List FactoryRecord)
    (errs : List Str) : LoaderState :=
  { s with
      cachedFactories := recs,
      factoriesLoaded := true,
      factoryLoadErrors := errs }

/-- The rejection handler attached to the sweep (lines 296-299): clear the
in-flight marker, then rethrow. -/
def sweepReject (s : LoaderState) : LoaderState :=
  { s with factoriesPromise := none }

/-- Claim C5: a call made while a sweep is in flight returns the same
pending result and changes nothing; two near-simultaneous calls from a
fresh state return the same pending promise and together issue exactly one
fetch per configured source; a call made after a successful load returns
the memoized catalog from an unchanged state, so no fetch is issued; and
after a failed sweep the in-flight marker is cleared, so a later call
starts a fresh sweep with its own fetches. -/
theorem C5_loadAll_single_flight (s : LoaderState) (p : Nat)
    (recs : List FactoryRecord) (errs : List Str) :
    (s.factoriesLoaded = false → s.factoriesPromise = some p →
      loadAllFactoriesCall s = (s, .pending p))
    ∧ (s.factoriesLoaded = false → s.factoriesPromise = none →
        (loadAllFactoriesCall s).2 = .pending s.nextPromiseId
        ∧ (loadAllFactoriesCall (loadAllFactoriesCall s).1).2 =
            .pending s.nextPromiseId
        ∧ (loadAllFactoriesCall (loadAllFactoriesCall s).1).1 =
            (loadAllFactoriesCall s).1
        ∧ (loadAllFactoriesCall (loadAllFactoriesCall s).1).1.fetchesIssued =
            s.fetchesIssued + numSources)
    ∧ (loadAllFactoriesCall (sweepResolve s recs errs) =
        (sweepResolve s recs errs, .value recs))
    ∧ ((sweepReject s).factoriesPromise = none
        ∧ (s.factoriesLoaded = false →
            (loadAllFactoriesCall (sweepReject s)).2 =
              .pending (sweepReject s).nextPromiseId
            ∧ (loadAllFactoriesCall (sweepReject s)).1.fetchesIssued =
              (sweepReject s).fetchesIssued + numSources)) := by
  refine ⟨?_, ?_, ?_, ?_⟩
  · intro h1 h2
    simp [loadAllFactoriesCall, h1, h2]
  · intro h1 h2
    refine ⟨by simp [loadAllFactoriesCall, h1, h2], ?_, ?_, ?_⟩
    · simp [loadAllFactoriesCall, h1, h2]
    · simp [loadAllFactoriesCall, h1, h2]
    · simp [loadAllFactoriesCall, h1, h2]
  · simp [loadAllFactoriesCall, sweepResolve]
  · refine ⟨rfl, ?_⟩
    intro h1
    constructor
    · simp [loadAllFactoriesCall, sweepReject, h1]
    · simp [loadAllFactoriesCall, sweepReject, h1]

theorem C5_loadAll_single_flight_witness :
    loadAllFactoriesCall ⟨false, [], some 5, [], 6, 4⟩ =
      (⟨false, [], some 5, [], 6, 4⟩, .pending 5)
    ∧ (loadAllFactoriesCall
        (loadAllFactoriesCall ⟨false, [], none, [], 0, 0⟩).1).1.fetchesIssued =
      0 + numSources :=
  ⟨(C5_loadAll_single_flight ⟨false, [], some 5, [], 6, 4⟩ 5 [] []).1 rfl rfl,
   ((C5_loadAll_single_flight ⟨false, [], none, [], 0, 0⟩ 0 [] []).2.1
      rfl rfl).2.2.2⟩

/-- Source `keyFor(type, id)` (`src/Site/add-ignore.js` lines 65-67): the
composite key `type::id`. -/
def keyFor (t id : Str) : Str := t ++ ':' :: ':' :: id

/-- Iteration order of `Object.entries(IGNORE_SOURCES)` (lines 23-28, 141). -/
def IGNORE_SOURCES_order : List SourceType :=
  [.JV_F_P, .XL_F_P, .JV_F_L, .XL_F_L]

/-- The enum name of a source type, the string used in composite keys. -/
def typeName : SourceType → Str
  | .JV_F_P => "JV_F_P".toList
  | .XL_F_P => "XL_F_P".toList
  | .JV_F_L => "JV_F_L".toList
  | .XL_F_L => "XL_F_L".toList

/-- The keys the JSON array of one ignore source contributes (lines 147-154):
each object element with a truthy `id ?? ID ?? null` contributes
`keyFor(type, String(id))`. -/
def ignoreKeysOfItems (t : SourceType) (items : List JData) : List Str :=
  items.filterMap fun d =>
    match d with
    | .nonObject => none
    | .obj o =>
      let idv := jsNullish (jsNullish o.id o.ID) JSVal.null
      if jsTruthy idv then some (keyFor (typeName t) (jsToString idv))
      else none

/-- Source `loadIgnoreLists()` (lines 139-160): build a fresh set from the
per-type ignore sources; a failed fetch only warns and a non-array payload
is skipped, so either contributes nothing. -/
def loadIgnoreLists (env : SourceType → FetchOutcome) : Finset Str :=
  IGNORE_SOURCES_order.foldl
    (fun next t =>
      match env t with
      | .fail => next
      | .ok .nonArr => next
      | .ok (.arr items) =>
        (ignoreKeysOfItems t items).foldl (fun s k => insert k s) next)
    ∅

/-- The `ignore_keys` field of the apply response: absent, present but not
an array, or an array of composite-key strings. -/
inductive IgnoreKeysField where
  | absent
  | nonArray
  | arr (ks : List Str)
deriving DecidableEq, Repr

/-- The ignore-set update after a successful (2xx) apply (lines 565-569):
replace the set wholesale when `ignore_keys` is an array of nonzero
length, otherwise reload the per-type ignore sources. -/
def updateIgnoreSet (fld : IgnoreKeysField)
    (env : SourceType → FetchOutcome) : Finset Str :=
  match fld with
  | .arr ks => if !ks.isEmpty then ks.toFinset else loadIgnoreLists env
  | .absent => loadIgnoreLists env
  | .nonArray => loadIgnoreLists env

/-- A concrete ignore-source environment: the first source holds one entry
with id 5, the others fail. -/
def envIgnore : SourceType → FetchOutcome
  | .JV_F_P => .ok (.arr
      [.obj ⟨.str "5".toList, .undef, .undef, .undef, .undef, .undef,
        .undef, .undef, .undef⟩])
  | _ => .fail

/-- Claim C9 counterexample: a 2xx response that provides `ignore_keys` as
an empty array is not applied wholesale (which would leave the empty set);
the code reloads the per-type sources instead, here producing a set that
contains a key. -/
theorem C9_updateIgnoreSet_counterexample :
    keyFor "JV_F_P".toList "5".toList ∈ updateIgnoreSet (.arr []) envIgnore
    ∧ updateIgnoreSet (.arr []) envIgnore ≠ (([] : List Str)).toFinset := by
  have hmem : keyFor "JV_F_P".toList "5".toList ∈
      updateIgnoreSet (.arr []) envIgnore := by decide
  refine ⟨hmem, fun h => ?_⟩
  rw [h] at hmem
  simp at hmem

/-- Claim C9 (amended): after a successful apply, the ignore key set is
replaced wholesale by the `ignore_keys` of the response exactly when that field
is provided as a non-empty array; when the field is absent, not an array,
or an empty array, the set is rebuilt by reloading the per-type ignore
sources exactly as at initial load; the two paths yield the same
observable state precisely when the key set sent by the server agrees with the
reloaded one. -/
theorem C9_updateIgnoreSet_contract (env : SourceType → FetchOutcome)
    (ks : List Str) :
    (ks ≠ [] → updateIgnoreSet (.arr ks) env = ks.toFinset)
    ∧ updateIgnoreSet .absent env = loadIgnoreLists env
    ∧ updateIgnoreSet .nonArray env = loadIgnoreLists env
    ∧ updateIgnoreSet (.arr []) env = loadIgnoreLists env
    ∧ (ks ≠ [] → ks.toFinset = loadIgnoreLists env →
        updateIgnoreSet (.arr ks) env = loadIgnoreLists env) := by
  refine ⟨?_, rfl, rfl, rfl, ?_⟩
  · intro h
    simp [updateIgnoreSet, isEmpty_false_of_ne_nil h]
  · intro h heq
    simp [updateIgnoreSet, isEmpty_false_of_ne_nil h, heq]

theorem C9_updateIgnoreSet_contract_witness :
    updateIgnoreSet (.arr [keyFor "X".toList "1".toList]) envIgnore =
      [keyFor "X".toList "1".toList].toFinset :=
  (C9_updateIgnoreSet_contract envIgnore [keyFor "X".toList "1".toList]).1
    (by decide)

/-- One selection entry of the add-ignore page (lines 241-247); only type
and id matter to the post-apply retention filter. -/
structure ISel where
  type : Str
  id : Str
  name : Str
  itemCount : Option Int
  alreadyIgnored : Bool
deriving DecidableEq, Repr

/-- One element of the `results` array of the apply response, restricted to the
fields the retention filter reads (lines 571-575). -/
structure ResultEntry where
  type : Str
  id : Str
  status : Str
deriving DecidableEq, Repr

/-- The selection retention step after a successful apply (lines 571-582):
collect the composite keys of the results with status "error", then keep
exactly the selections whose composite key is among them.  The JavaScript
`Set` is modelled by the key list with membership lookup, which has the
same `has` observations. -/
def applyRetainSelections (sels : List ISel) (results : List ResultEntry) :
    List ISel :=
  let failedKeys : List Str :=
    (results.filter fun r => r.status == "error".toList).map
      fun r => keyFor r.type r.id
  sels.filter fun e => failedKeys.contains (keyFor e.type e.id)

theorem keyFor_inj {t1 i1 t2 i2 : Str} (h1 : ':' ∉ t1) (h2 : ':' ∉ t2)
    (h : keyFor t1 i1 = keyFor t2 i2) : t1 = t2 ∧ i1 = i2 := by
  induction t1 generalizing t2 with
  | nil =>
    cases t2 with
    | nil => simpa [keyFor] using h
    | cons d ds =>
      exfalso
      simp only [keyFor, List.nil_append, List.cons_append,
        List.cons.injEq] at h
      exact h2 (by rw [← h.1]; exact List.mem_cons_self _ _)
  | cons c cs ih =>
    cases t2 with
    | nil =>
      exfalso
      simp only [keyFor, List.nil_append, List.cons_append,
        List.cons.injEq] at h
      exact h1 (by rw [h.1]; exact List.mem_cons_self _ _)
    | cons d ds =>
      simp only [keyFor, List.cons_append, List.cons.injEq] at h
      rcases h with ⟨hcd, hrest⟩
      have h1' : ':' ∉ cs := fun hx => h1 (List.mem_cons_of_mem _ hx)
      have h2' : ':' ∉ ds := fun hx => h2 (List.mem_cons_of_mem _ hx)
      rcases ih h1' h2' hrest with ⟨hts, his⟩
      exact ⟨by rw [hcd, hts], his⟩

/-- Claim C10: after a 2xx apply response, the retained selection is
exactly the subsequence of entries whose identity occurs in the returned
results with status "error"; entries with any other status and entries the
response does not mention at all are removed.  The code matches through
the composite key, so the statement assumes the type strings contain no
colon, which holds for the four fixed source types. -/
theorem C10_applyRetainSelections_contract (sels : List ISel)
    (results : List ResultEntry)
    (hsels : ∀ e ∈ sels, ':' ∉ e.type)
    (hres : ∀ r ∈ results, ':' ∉ r.type) :
    applyRetainSelections sels results =
      sels.filter fun e =>
        results.any fun r =>
          r.status == "error".toList && r.type == e.type && r.id == e.id := by
  unfold applyRetainSelections
  refine List.filter_congr ?_
  intro e he
  have hiff : ((results.filter fun r => r.status == "error".toList).map
        fun r => keyFor r.type r.id).contains (keyFor e.type e.id) = true ↔
      (results.any fun r =>
        r.status == "error".toList && r.type == e.type && r.id == e.id) = true := by
    rw [List.elem_iff, List.any_eq_true]
    constructor
    · intro hmem
      rcases List.mem_map.mp hmem with ⟨r, hrmem, hkey⟩
      rcases List.mem_filter.mp hrmem with ⟨hrin, hstat⟩
      rcases keyFor_inj (hres r hrin) (hsels e he) hkey with ⟨ht, hi⟩
      refine ⟨r, hrin, ?_⟩
      simp only [Bool.and_eq_true, beq_iff_eq] at *
      exact ⟨⟨hstat, ht⟩, hi⟩
    · rintro ⟨r, hrin, hprop⟩
      simp only [Bool.and_eq_true, beq_iff_eq] at hprop
      refine List.mem_map.mpr ⟨r, List.mem_filter.mpr ⟨hrin, ?_⟩, ?_⟩
      · simp [hprop.1.1]
      · rw [hprop.1.2, hprop.2]
  exact Bool.coe_iff_coe.mp hiff

/-- A concrete selection list for the witness. -/
def selsW : List ISel :=
  [⟨"JV_F_P".toList, "1".toList, "A".toList, none, false⟩,
   ⟨"XL_F_P".toList, "2".toList, "B".toList, some 4, true⟩,
   ⟨"JV_F_L".toList, "3".toList, "C".toList, none, false⟩]

/-- A concrete apply-result list for the witness: entry 1 errors, entry 2
succeeds, entry 3 is not mentioned. -/
def resultsW : List ResultEntry :=
  [⟨"JV_F_P".toList, "1".toList, "error".toList⟩,
   ⟨"XL_F_P".toList, "2".toList, "added".toList⟩]

theorem C10_applyRetainSelections_contract_witness :
    applyRetainSelections selsW resultsW =
      selsW.filter fun e =>
        resultsW.any fun r =>
          r.status == "error".toList && r.type == e.type && r.id == e.id :=
  C10_applyRetainSelections_contract selsW resultsW (by decide) (by decide)
